import Mathlib

/-!
# Verification of `puushy` (src/server.js)

A shallow embedding of the ephemeral file-sharing server `server.js`:
the metadata store (a single JSON document holding an ordered list of
records), the blob repository (the `uploads/` directory, modelled as an
association list from stored name to bytes), the request handlers
(`/upload` in both its formidable and hand-rolled streaming variants,
`/api/info/:id`, `/api/download/:id`) and the periodic expiry sweep
`cleanupExpiredFiles`.  Bytes are modelled as `Char` (the inputs of
interest are ASCII); buffers and strings are `List Char`.
-/

/-- TTL for stored files: `FILE_EXPIRY_MS = 60 * 60 * 1000` in server.js. -/
def FILE_EXPIRY_MS : Int := 60 * 60 * 1000

/-- One entry of `metadata.json`'s `files` array, as pushed by the upload
handlers: `{id, originalName, filename, downloads, createdAt}`. -/
structure FileRecord where
  id : String
  originalName : String
  filename : String
  downloads : Nat
  createdAt : Int
deriving DecidableEq, Repr

/-- The server's persistent state: the `files` array of `metadata.json`
(insertion-ordered) and the uploads directory, an association list from
stored file name to file bytes (names are unique, as in a directory). -/
structure ServerState where
  files : List FileRecord
  blobs : List (String × List Char)
deriving DecidableEq, Repr

/-- `fs.existsSync` on the uploads directory. -/
def blobExists (blobs : List (String × List Char)) (name : String) : Bool :=
  blobs.any (fun b => b.1 == name)

/-- Reading a blob's bytes (the stream served by `res.download`). -/
def readBlob (blobs : List (String × List Char)) (name : String) : List Char :=
  ((blobs.find? (fun b => b.1 == name)).map Prod.snd).getD []

/-- `fs.unlinkSync`: remove the file of the given name. -/
def unlinkBlob (blobs : List (String × List Char)) (name : String) :
    List (String × List Char) :=
  blobs.filter (fun b => ¬(b.1 == name))

/-- First index at which `pat` occurs as a contiguous sublist
(`Buffer.prototype.indexOf`); `none` when it does not occur. -/
def indexOfSub (pat : List Char) : List Char → Option Nat
  | [] => if pat.isEmpty then some 0 else none
  | s@(_ :: rest) =>
    if pat.isPrefixOf s then some 0
    else (indexOfSub pat rest).map (· + 1)

/-- Attempt to match the regex `filename="([^"]+)"` at the very start of
`s`, returning the capture group. -/
def matchFilenameAt (s : List Char) : Option (List Char) :=
  if ("filename=\"".toList).isPrefixOf s then
    let after := s.drop 10
    let name := after.takeWhile (fun c => c ≠ '"')
    if name.length ≠ 0 ∧ name.length < after.length then some name else none
  else none

/-- `headerStr.match(/filename="([^"]+)"/)`: try the pattern at each start
position, left to right, returning the first capture. -/
def extractFilename : List Char → Option (List Char)
  | [] => none
  | s@(_ :: rest) =>
    match matchFilenameAt s with
    | some n => some n
    | none => extractFilename rest

/-- `path.extname`: the substring from the last `.` (inclusive), empty when
there is no dot or the only dot starts the name. -/
def extname (s : List Char) : List Char :=
  let afterDot := (s.reverse.takeWhile (fun c => c ≠ '.')).reverse
  if afterDot.length = s.length then []
  else if afterDot.length + 1 = s.length then []
  else '.' :: afterDot

/-- `path.basename`: the part after the last `/`. -/
def basenameChars (s : List Char) : List Char :=
  (s.reverse.takeWhile (fun c => c ≠ '/')).reverse

/-- `path.basename(name, ext)` where `ext = extname name`: the stored name
with its extension stripped — how the formidable handler recovers the id. -/
def stripExt (s : List Char) : List Char :=
  s.take (s.length - (extname s).length)

/-- Response of `POST /upload` as seen by the caller. -/
inductive UploadResponse where
  | ok (id : String) (filename : String) (link : String)
  | badRequest (error : String)
deriving DecidableEq, Repr

/-- The formidable-variant callback of `app.post('/upload')`
(server.js:78-122).  `file` is `files.file` handed over by the parsing
library (`none` when the request had no file part); `persistOk` tells
whether `saveMetadata` succeeds; the returned list is the metadata that is
durably persisted (unchanged when the save throws).  The response in the
catch branch is byte-identical to the success response. -/
def uploadCallback (file : Option (String × List Char × String)) (now : Int)
    (persistOk : Bool) (store : List FileRecord) :
    List FileRecord × UploadResponse :=
  match file with
  | none => (store, .badRequest "No file uploaded")
  | some (originalName, _content, filepath) =>
    let savedFilename := String.mk (basenameChars filepath.toList)
    let fileId := String.mk (stripExt savedFilename.toList)
    let rec1 : FileRecord :=
      { id := fileId, originalName := originalName, filename := savedFilename,
        downloads := 0, createdAt := now }
    let store' := if persistOk then store ++ [rec1] else store
    (store', .ok fileId originalName ("/f/" ++ fileId))

/-- `GET /api/info/:id` response body on success. -/
structure InfoResponse where
  id : String
  filename : String
  downloads : Nat
  createdAt : Int
  expiresAt : Int
deriving DecidableEq, Repr

/-- `app.get('/api/info/:id')` (server.js:366-381): look the record up in
the metadata; `none` is the 404 response.  The blob repository is never
consulted and the state is never mutated. -/
def infoHandler (st : ServerState) (id : String) : Option InfoResponse :=
  match st.files.find? (fun f => f.id == id) with
  | none => none
  | some f =>
    some { id := f.id, filename := f.originalName, downloads := f.downloads,
           createdAt := f.createdAt, expiresAt := f.createdAt + FILE_EXPIRY_MS }

/-- Outcome of `GET /api/download/:id`. -/
inductive DownloadResult where
  | notFound
  | success (bytes : List Char) (suggestedName : String)
deriving DecidableEq, Repr

/-- `app.get('/api/download/:id')` (server.js:383-404): find the record's
index; 404 when absent; when the blob file is gone, splice the record out,
save, and 404 (self-heal); otherwise bump `downloads`, save, and stream the
blob under its original name. -/
def downloadHandler (st : ServerState) (id : String) :
    ServerState × DownloadResult :=
  let i := st.files.findIdx (fun f => f.id == id)
  if h : i < st.files.length then
    let file := st.files.get ⟨i, h⟩
    if blobExists st.blobs file.filename then
      ({ files := st.files.set i { file with downloads := file.downloads + 1 },
         blobs := st.blobs },
       .success (readBlob st.blobs file.filename) file.originalName)
    else
      ({ files := st.files.eraseIdx i, blobs := st.blobs }, .notFound)
  else
    (st, .notFound)

/-- The `metadata.files.forEach` loop of `cleanupExpiredFiles`
(server.js:406-421): walk the records in order; an expired record
(`now - createdAt > FILE_EXPIRY_MS`) has its blob unlinked when present and
is dropped; a live record is pushed onto `validFiles`. -/
def sweepFiles (now : Int) :
    List FileRecord → List (String × List Char) →
    List FileRecord × List (String × List Char)
  | [], blobs => ([], blobs)
  | f :: rest, blobs =>
    if now - f.createdAt > FILE_EXPIRY_MS then
      sweepFiles now rest (unlinkBlob blobs f.filename)
    else
      let r := sweepFiles now rest blobs
      (f :: r.1, r.2)

/-- `cleanupExpiredFiles` (server.js:406-426): sweep, then save the valid
list only when its length differs from the loaded one.  The Bool records
whether `saveMetadata` ran; when it did not, the persisted document is the
one that was loaded. -/
def cleanupExpiredFiles (st : ServerState) (now : Int) : ServerState × Bool :=
  let r := sweepFiles now st.files st.blobs
  if r.1.length ≠ st.files.length then
    ({ files := r.1, blobs := r.2 }, true)
  else
    ({ files := st.files, blobs := r.2 }, false)

/-- Parsing state of the hand-rolled `app.post('/upload')` handler
(server.js:252-353): the closure variables `filename`, `fileStart`,
`writeStream` (here `streamOpen`, with the bytes written so far in
`written`), `headerBuffer`, whether `res.json` has been sent, and the
persisted metadata document. -/
structure StreamState where
  filename : List Char
  fileStart : Bool
  streamOpen : Bool
  written : List Char
  headerBuffer : List Char
  response : Option UploadResponse
  store : List FileRecord
deriving DecidableEq, Repr

/-- Initial closure state of the hand-rolled handler. -/
def initStream (store : List FileRecord) : StreamState :=
  { filename := "file".toList, fileStart := false, streamOpen := false,
    written := [], headerBuffer := [], response := none, store := store }

/-- One `req.on('data')` callback of the hand-rolled handler
(server.js:271-339).  Before `fileStart`: accumulate the chunk into
`headerBuffer`, look for `filename="..."`; on a match open the write
stream and forward whatever followed `\r\n\r\n` inside the accumulated
buffer.  After `fileStart`, while the stream is open: scan THIS CHUNK
ALONE for `'--' + boundary`; on a hit write the bytes before it, close the
stream, register the record and answer; otherwise write the whole chunk.
Once the response is sent, further chunks are ignored. -/
def onData (boundary : List Char) (fileId : String) (now : Int)
    (persistOk : Bool) (st : StreamState) (chunk : List Char) : StreamState :=
  if ¬st.fileStart then
    let hb := st.headerBuffer ++ chunk
    match extractFilename hb with
    | none => { st with headerBuffer := hb }
    | some name =>
      let st1 := { st with headerBuffer := hb, filename := name,
                           fileStart := true, streamOpen := true }
      match indexOfSub ("\r\n\r\n".toList) hb with
      | some i => { st1 with written := hb.drop (i + 4) }
      | none => st1
  else if st.streamOpen then
    match indexOfSub ('-' :: '-' :: boundary) chunk with
    | some i =>
      let saveName := fileId ++ String.mk (extname st.filename)
      let rec1 : FileRecord :=
        { id := fileId, originalName := String.mk st.filename,
          filename := saveName, downloads := 0, createdAt := now }
      { st with written := st.written ++ chunk.take i,
                streamOpen := false,
                response := some (.ok fileId (String.mk st.filename)
                                      ("/f/" ++ fileId)),
                store := if persistOk then st.store ++ [rec1] else st.store }
    | none => { st with written := st.written ++ chunk }
  else st

/-- The hand-rolled upload handler applied to a request body delivered as a
list of chunks. -/
def runUpload (boundary : List Char) (fileId : String) (now : Int)
    (persistOk : Bool) (store : List FileRecord)
    (chunks : List (List Char)) : StreamState :=
  chunks.foldl (onData boundary fileId now persistOk) (initStream store)

/-- Modelled from the spec: the streaming field-parsing library
(formidable) is an external dependency, not under src/.  Per the spec's
multipart contract (§4.1), its observable effect on a single-file body is
to extract the file name from the part headers (everything before the
`\r\n\r\n` terminator) and the file's exact bytes: those strictly between
the terminator and the `\r\n--boundary` closing delimiter. -/
def specMultipartExtract (boundary : List Char) (body : List Char) :
    Option (List Char × List Char) :=
  match indexOfSub ("\r\n\r\n".toList) body with
  | none => none
  | some i =>
    match extractFilename (body.take i) with
    | none => none
    | some name =>
      let rest := body.drop (i + 4)
      match indexOfSub ('\r' :: '\n' :: '-' :: '-' :: boundary) rest with
      | none => none
      | some j => some (name, rest.take j)

/-- `N` downloads of the same id, executed consecutively.  The
`/api/download/:id` handler is synchronous from `loadMetadata`
(`fs.readFileSync`) to `saveMetadata` (`fs.writeFileSync`) with no await
point in between, so under JavaScript's run-to-completion semantics each
request's load-mutate-save cycle executes atomically within one
event-loop turn: `N` concurrent downloads serialize into `N` consecutive
handler runs in some order, which `fetchN` models. -/
def fetchN (st : ServerState) (id : String) : Nat → ServerState
  | 0 => st
  | n + 1 => fetchN (downloadHandler st id).1 id n

/-- Every state-touching operation of the server, for stating whole-system
invariants: the formidable upload callback, the hand-rolled streaming
upload, the two read endpoints, the download endpoint and a sweeper run. -/
inductive Op where
  | formUpload (file : Option (String × List Char × String)) (now : Int)
               (persistOk : Bool)
  | streamUpload (boundary : List Char) (fileId : String) (now : Int)
                 (persistOk : Bool) (chunks : List (List Char))
  | describe (id : String)
  | landing (id : String)
  | fetch (id : String)
  | sweep (now : Int)

/-- Effect of one operation on the persisted server state.  The read
endpoints (`/f/:id`, `/api/info/:id`) never mutate; uploads append the
written blob to the uploads directory; `fetch` and `sweep` apply their
handlers. -/
def applyOp (st : ServerState) (op : Op) : ServerState :=
  match op with
  | .formUpload file now persistOk =>
    let r := uploadCallback file now persistOk st.files
    let blobs' := match file with
      | none => st.blobs
      | some (_, content, filepath) =>
        st.blobs ++ [(String.mk (basenameChars filepath.toList), content)]
    { files := r.1, blobs := blobs' }
  | .streamUpload boundary fileId now persistOk chunks =>
    let fin := runUpload boundary fileId now persistOk st.files chunks
    let blobs' := if fin.fileStart then
        st.blobs ++ [(fileId ++ String.mk (extname fin.filename), fin.written)]
      else st.blobs
    { files := fin.store, blobs := blobs' }
  | .describe _ => st
  | .landing _ => st
  | .fetch id => (downloadHandler st id).1
  | .sweep now => (cleanupExpiredFiles st now).1

/-- The id the formidable handler recovers from the stored file's path. -/
def fileIdOf (filepath : String) : String :=
  String.mk (stripExt (basenameChars filepath.toList))

/-- Caller-observable part of the streaming handler's state: everything
except the persisted metadata document. -/
def obsStream (st : StreamState) :
    List Char × Bool × Bool × List Char × List Char × Option UploadResponse :=
  (st.filename, st.fileStart, st.streamOpen, st.written, st.headerBuffer,
   st.response)

/-- A record the sweep keeps: `now - createdAt > TTL` is false. -/
def liveB (now : Int) (f : FileRecord) : Bool :=
  decide (now - f.createdAt ≤ FILE_EXPIRY_MS)

/-- The id an operation mints is fresh: shortid-generated identifiers are
unique, so an upload's new id differs from every live record's id.
Non-upload operations mint nothing. -/
def freshIds (st : ServerState) : Op → Prop
  | .formUpload (some (_, _, p)) _ _ => ∀ r ∈ st.files, r.id ≠ fileIdOf p
  | .formUpload none _ _ => True
  | .streamUpload _ fid _ _ _ => ∀ r ∈ st.files, r.id ≠ fid
  | _ => True

/-- The registration instant an operation would stamp on a new record
(`Date.now()` at the upload's save), `none` for operations that cannot
register records. -/
def opNow : Op → Option Int
  | .formUpload _ now _ => some now
  | .streamUpload _ _ now _ _ => some now
  | _ => none

/-- A well-formed single-file multipart body (boundary token `XYZ`,
file `a.txt`, content `hi`) delivered in two chunks such that the closing
marker `--XYZ` straddles the chunk border: the first chunk ends with
`--X`, the second starts with `YZ`. -/
def chunksSplitBoundary : List (List Char) :=
  ["--XYZ\r\nContent-Disposition: form-data; name=\"file\"; filename=\"a.txt\"\r\n\r\nhi\r\n--X".toList,
   "YZ--\r\n".toList]

/-- The same byte stream delivered so that the closing marker lies whole
inside the second chunk. -/
def chunksWholeBoundary : List (List Char) :=
  ["--XYZ\r\nContent-Disposition: form-data; name=\"file\"; filename=\"a.txt\"\r\n\r\n".toList,
   "hi\r\n--XYZ--\r\n".toList]

/-- First delivered chunk of a well-formed upload request: the part
headers (boundary token `XYZ`, file `a.txt`), ending exactly at the
`\r\n\r\n` header terminator. -/
def reqHeaderChunk : List Char :=
  "--XYZ\r\nContent-Disposition: form-data; name=\"file\"; filename=\"a.txt\"\r\n\r\n".toList

/-- Multipart framing that follows the file's bytes: the CRLF that
terminates the part and the closing boundary delimiter. -/
def reqTail : List Char := "\r\n--XYZ--\r\n".toList

/-! ## Helper lemmas on lists -/

theorem findIdx_append_cons {α : Type} (p : α → Bool) (pre post : List α)
    (x : α) (hpre : ∀ r ∈ pre, p r = false) (hx : p x = true) :
    (pre ++ x :: post).findIdx p = pre.length := by
  induction pre with
  | nil => simp [List.findIdx_cons, hx]
  | cons a pre ih =>
    have ha : p a = false := hpre a (by simp)
    simp [List.findIdx_cons, ha]
    exact ih (fun r hr => hpre r (by simp [hr]))

theorem get_append_cons {α : Type} (pre post : List α) (x : α)
    (h : pre.length < (pre ++ x :: post).length) :
    (pre ++ x :: post).get ⟨pre.length, h⟩ = x := by
  induction pre with
  | nil => rfl
  | cons a pre ih => exact ih (by simp)

theorem set_append_cons {α : Type} (pre post : List α) (x y : α) :
    (pre ++ x :: post).set pre.length y = pre ++ y :: post := by
  induction pre with
  | nil => rfl
  | cons a pre ih => simp [List.set, ih]

theorem eraseIdx_append_cons {α : Type} (pre post : List α) (x : α) :
    (pre ++ x :: post).eraseIdx pre.length = pre ++ post := by
  induction pre with
  | nil => rfl
  | cons a pre ih => simp [List.eraseIdx, ih]

theorem find?_append_cons {α : Type} (p : α → Bool) (pre post : List α)
    (x : α) (hpre : ∀ r ∈ pre, p r = false) (hx : p x = true) :
    (pre ++ x :: post).find? p = some x := by
  induction pre with
  | nil => simp [List.find?, hx]
  | cons a pre ih =>
    have ha : p a = false := hpre a (by simp)
    rw [List.cons_append, List.find?_cons_of_neg]
    · exact ih (fun r hr => hpre r (by simp [hr]))
    · simp [ha]

/-! ## C10: a successful fetch only touches the target record -/

/-- C10: when a record with the requested id is present (first match at the
shown position) and its blob exists, `GET /api/download/:id` replaces only
that record by the same record with `downloads` incremented, leaving every
other record and the whole insertion order unchanged, and leaves the blob
repository untouched. -/
theorem fetch_modifies_only_target (pre post : List FileRecord)
    (f : FileRecord) (blobs : List (String × List Char)) (id : String)
    (hpre : ∀ r ∈ pre, r.id ≠ id) (hf : f.id = id)
    (hblob : blobExists blobs f.filename = true) :
    downloadHandler { files := pre ++ f :: post, blobs := blobs } id =
      ({ files := pre ++ { f with downloads := f.downloads + 1 } :: post,
         blobs := blobs },
       .success (readBlob blobs f.filename) f.originalName) := by
  have hidx : (pre ++ f :: post).findIdx (fun r => r.id == id) = pre.length :=
    findIdx_append_cons _ _ _ _
      (fun r hr => by simp [hpre r hr]) (by simp [hf])
  have hlt : pre.length < (pre ++ f :: post).length := by
    simp [List.length_append]
  unfold downloadHandler
  simp only [hidx, dif_pos hlt]
  rw [get_append_cons pre post f hlt]
  simp [hblob, set_append_cons]

/-- Witness for `fetch_modifies_only_target` at a concrete two-record
store. -/
theorem fetch_modifies_only_target_witness :
    ((∀ r ∈ [({ id := "b", originalName := "b.txt", filename := "b.txt",
                downloads := 3, createdAt := 5 } : FileRecord)], r.id ≠ "a") ∧
     ("a" : String) = "a" ∧
     blobExists [("a.txt", ['h', 'i'])] "a.txt" = true) ∧
    downloadHandler
      { files := [{ id := "b", originalName := "b.txt", filename := "b.txt",
                    downloads := 3, createdAt := 5 },
                  { id := "a", originalName := "orig.txt",
                    filename := "a.txt", downloads := 7, createdAt := 9 }],
        blobs := [("a.txt", ['h', 'i'])] } "a" =
      ({ files := [{ id := "b", originalName := "b.txt", filename := "b.txt",
                     downloads := 3, createdAt := 5 },
                   { id := "a", originalName := "orig.txt",
                     filename := "a.txt", downloads := 8, createdAt := 9 }],
         blobs := [("a.txt", ['h', 'i'])] },
       .success ['h', 'i'] "orig.txt") :=
  ⟨⟨by decide, rfl, by decide⟩,
   fetch_modifies_only_target
     [{ id := "b", originalName := "b.txt", filename := "b.txt",
        downloads := 3, createdAt := 5 }] []
     { id := "a", originalName := "orig.txt", filename := "a.txt",
       downloads := 7, createdAt := 9 }
     [("a.txt", ['h', 'i'])] "a" (by decide) (by decide) (by decide)⟩

/-! ## C3: missing-blob self-heal -/

/-- C3 counterexample: with a record whose blob file is absent,
`GET /api/info/:id` does NOT return `NotFound` — it answers with the
record's data (the info handler never consults the blob repository), so
the claim that `describe` returns `NotFound` on a missing blob fails. -/
theorem describe_missing_blob_cex :
    blobExists ([] : List (String × List Char)) "a.txt" = false ∧
    infoHandler
      { files := [{ id := "a", originalName := "orig.txt",
                    filename := "a.txt", downloads := 2, createdAt := 10 }],
        blobs := [] } "a" =
      some { id := "a", filename := "orig.txt", downloads := 2,
             createdAt := 10, expiresAt := 10 + FILE_EXPIRY_MS } := by
  constructor
  · decide
  · rfl

/-- C3 amended: only `fetch` self-heals.  When the blob of the (first)
record carrying the requested id is missing, `GET /api/download/:id`
returns `NotFound` and persists the store with that record spliced out, so
a subsequent load has no record with that id; `GET /api/info/:id` on the
same state, however, still answers with the record's data rather than
`NotFound`. -/
theorem fetch_selfheal_describe_does_not (pre post : List FileRecord)
    (f : FileRecord) (blobs : List (String × List Char)) (id : String)
    (hpre : ∀ r ∈ pre, r.id ≠ id) (hf : f.id = id)
    (hpost : ∀ r ∈ post, r.id ≠ id)
    (hblob : blobExists blobs f.filename = false) :
    downloadHandler { files := pre ++ f :: post, blobs := blobs } id =
      ({ files := pre ++ post, blobs := blobs }, .notFound) ∧
    (∀ r ∈ pre ++ post, r.id ≠ id) ∧
    infoHandler { files := pre ++ f :: post, blobs := blobs } id =
      some { id := f.id, filename := f.originalName, downloads := f.downloads,
             createdAt := f.createdAt,
             expiresAt := f.createdAt + FILE_EXPIRY_MS } := by
  have hidx : (pre ++ f :: post).findIdx (fun r => r.id == id) = pre.length :=
    findIdx_append_cons _ _ _ _
      (fun r hr => by simp [hpre r hr]) (by simp [hf])
  have hlt : pre.length < (pre ++ f :: post).length := by
    simp [List.length_append]
  refine ⟨?_, ?_, ?_⟩
  · unfold downloadHandler
    simp only [hidx, dif_pos hlt]
    rw [get_append_cons pre post f hlt]
    simp [hblob, eraseIdx_append_cons]
  · intro r hr
    rcases List.mem_append.mp hr with h | h
    · exact hpre r h
    · exact hpost r h
  · unfold infoHandler
    rw [find?_append_cons _ _ _ _ (fun r hr => by simp [hpre r hr])
          (by simp [hf])]

/-- Witness for `fetch_selfheal_describe_does_not` at a concrete
one-record store with no blobs. -/
theorem fetch_selfheal_witness :
    ((∀ r ∈ ([] : List FileRecord), r.id ≠ "a") ∧
     ("a" : String) = "a" ∧
     (∀ r ∈ ([] : List FileRecord), r.id ≠ "a") ∧
     blobExists ([] : List (String × List Char)) "a.txt" = false) ∧
    (downloadHandler
        { files := [{ id := "a", originalName := "orig.txt",
                      filename := "a.txt", downloads := 2, createdAt := 10 }],
          blobs := [] } "a" =
      ({ files := [], blobs := [] }, .notFound) ∧
     (∀ r ∈ ([] : List FileRecord), r.id ≠ "a") ∧
     infoHandler
        { files := [{ id := "a", originalName := "orig.txt",
                      filename := "a.txt", downloads := 2, createdAt := 10 }],
          blobs := [] } "a" =
      some { id := "a", filename := "orig.txt", downloads := 2,
             createdAt := 10, expiresAt := 10 + FILE_EXPIRY_MS }) :=
  ⟨⟨by decide, rfl, by decide, by decide⟩,
   fetch_selfheal_describe_does_not [] []
     { id := "a", originalName := "orig.txt", filename := "a.txt",
       downloads := 2, createdAt := 10 }
     [] "a" (by decide) (by decide) (by decide) (by decide)⟩

/-! ## C4: upload reports success even when metadata persistence fails -/

theorem onData_obs (bd : List Char) (fid : String) (now : Int)
    (pk₁ pk₂ : Bool) (a b : StreamState) (c : List Char)
    (h : obsStream a = obsStream b) :
    obsStream (onData bd fid now pk₁ a c) =
      obsStream (onData bd fid now pk₂ b c) := by
  obtain ⟨f₁, fs₁, so₁, w₁, hb₁, r₁, s₁⟩ := a
  obtain ⟨f₂, fs₂, so₂, w₂, hb₂, r₂, s₂⟩ := b
  simp only [obsStream, Prod.mk.injEq] at h
  obtain ⟨h1, h2, h3, h4, h5, h6⟩ := h
  subst h1 h2 h3 h4 h5 h6
  cases fs₁ with
  | false =>
    simp only [onData]
    cases hext : extractFilename (hb₁ ++ c) with
    | none => simp [obsStream]
    | some name =>
      cases hidx : indexOfSub ("\r\n\r\n".toList) (hb₁ ++ c) with
      | none => simp [obsStream]
      | some i => simp [obsStream]
  | true =>
    cases so₁ with
    | false => simp [onData, obsStream]
    | true =>
      simp only [onData]
      cases hidx : indexOfSub ('-' :: '-' :: bd) c with
      | none => simp [obsStream]
      | some i => simp [obsStream]

theorem runUpload_obs (bd : List Char) (fid : String) (now : Int)
    (pk₁ pk₂ : Bool) (store₁ store₂ : List FileRecord)
    (chunks : List (List Char)) :
    obsStream (runUpload bd fid now pk₁ store₁ chunks) =
      obsStream (runUpload bd fid now pk₂ store₂ chunks) := by
  suffices h : ∀ (a b : StreamState), obsStream a = obsStream b →
      obsStream (chunks.foldl (onData bd fid now pk₁) a) =
        obsStream (chunks.foldl (onData bd fid now pk₂) b) by
    exact h _ _ (by simp [obsStream, initStream])
  induction chunks with
  | nil => intro a b h; simpa using h
  | cons c rest ih =>
    intro a b h
    exact ih _ _ (onData_obs bd fid now pk₁ pk₂ a b c h)

/-- C4: when the blob is already written and metadata persistence fails,
both upload variants report the very success response of the
persistence-succeeding run.  The formidable callback answers
`{id, filename, link: /f/id}` with the persisted document left unchanged,
and the hand-rolled streaming handler's response never depends on whether
`saveMetadata` throws. -/
theorem upload_tolerates_persist_failure (n : String) (c : List Char)
    (p : String) (now : Int) (store : List FileRecord) :
    uploadCallback (some (n, c, p)) now false store =
      (store, .ok (fileIdOf p) n ("/f/" ++ fileIdOf p)) ∧
    (uploadCallback (some (n, c, p)) now false store).2 =
      (uploadCallback (some (n, c, p)) now true store).2 ∧
    (∀ (bd : List Char) (fid : String) (chunks : List (List Char))
       (store' : List FileRecord),
      (runUpload bd fid now false store chunks).response =
        (runUpload bd fid now true store' chunks).response) := by
  refine ⟨by simp [uploadCallback, fileIdOf], by simp [uploadCallback], ?_⟩
  intro bd fid chunks store'
  have h := runUpload_obs bd fid now false true store store' chunks
  simp only [obsStream, Prod.mk.injEq] at h
  exact h.2.2.2.2.2

/-! ## C8: absent vs zero-byte file parts -/

/-- C8 counterexample: a zero-byte file part (`content = []`) is NOT
rejected — the formidable callback checks only that `files.file` is
present, never its size, so the upload answers `200 {id, filename, link}`
and registers a metadata record. -/
theorem zero_byte_upload_accepted_cex :
    uploadCallback (some ("empty.txt", [], "xyz.txt")) 5 true [] =
      ([{ id := "xyz", originalName := "empty.txt", filename := "xyz.txt",
          downloads := 0, createdAt := 5 }],
       .ok "xyz" "empty.txt" "/f/xyz") := by
  rfl

/-- C8 amended: an upload whose body carries no file part fails with the
400 `No file uploaded` response and registers nothing, while a present
file part of ANY size — zero bytes included — is accepted: the callback
answers success and appends a fresh record (`downloads = 0`). -/
theorem no_file_vs_zero_byte (now : Int) (store : List FileRecord)
    (persistOk : Bool) (n : String) (c : List Char) (p : String) :
    uploadCallback none now persistOk store =
      (store, .badRequest "No file uploaded") ∧
    uploadCallback (some (n, c, p)) now true store =
      (store ++
        [{ id := fileIdOf p, originalName := n,
           filename := String.mk (basenameChars p.toList), downloads := 0,
           createdAt := now }],
       .ok (fileIdOf p) n ("/f/" ++ fileIdOf p)) := by
  constructor
  · rfl
  · simp [uploadCallback, fileIdOf]

/-! ## Sweep lemmas, C6 and C7 -/

theorem sweep_fst (now : Int) (fs : List FileRecord)
    (bs : List (String × List Char)) :
    (sweepFiles now fs bs).1 = fs.filter (liveB now) := by
  induction fs generalizing bs with
  | nil => rfl
  | cons f rest ih =>
    by_cases h : now - f.createdAt > FILE_EXPIRY_MS
    · have hl : liveB now f = false := by simp [liveB]; omega
      simp [sweepFiles, if_pos h, ih, List.filter_cons, hl]
    · have hl : liveB now f = true := by simp [liveB]; omega
      simp [sweepFiles, if_neg h, ih, List.filter_cons, hl]

theorem sweep_snd_all_live (now : Int) (fs : List FileRecord)
    (bs : List (String × List Char))
    (h : ∀ f ∈ fs, liveB now f = true) :
    (sweepFiles now fs bs).2 = bs := by
  induction fs generalizing bs with
  | nil => rfl
  | cons f rest ih =>
    have hf : liveB now f = true := h f (by simp)
    have hnot : ¬(now - f.createdAt > FILE_EXPIRY_MS) := by
      simp [liveB] at hf; omega
    simp [sweepFiles, if_neg hnot]
    exact ih bs (fun g hg => h g (by simp [hg]))

theorem sweep_keeps_no_blob_named (now : Int) (fs : List FileRecord)
    (bs : List (String × List Char)) (n : String)
    (h : ∀ b ∈ bs, b.1 ≠ n) :
    ∀ b ∈ (sweepFiles now fs bs).2, b.1 ≠ n := by
  induction fs generalizing bs with
  | nil => exact h
  | cons f rest ih =>
    by_cases hc : now - f.createdAt > FILE_EXPIRY_MS
    · simp only [sweepFiles, if_pos hc]
      exact ih _ (fun b hb => h b (List.mem_of_mem_filter hb))
    · simp only [sweepFiles, if_neg hc]
      exact ih _ h

theorem sweep_unlinks_expired (now : Int) (fs : List FileRecord)
    (bs : List (String × List Char)) (f : FileRecord)
    (hmem : f ∈ fs) (hexp : now - f.createdAt > FILE_EXPIRY_MS) :
    ∀ b ∈ (sweepFiles now fs bs).2, b.1 ≠ f.filename := by
  induction fs generalizing bs with
  | nil => cases hmem
  | cons g rest ih =>
    rcases List.mem_cons.mp hmem with rfl | hmem'
    · simp only [sweepFiles, if_pos hexp]
      apply sweep_keeps_no_blob_named
      intro b hb
      have := List.of_mem_filter hb
      simpa using this
    · by_cases hc : now - g.createdAt > FILE_EXPIRY_MS
      · simp only [sweepFiles, if_pos hc]
        exact ih _ hmem'
      · simp only [sweepFiles, if_neg hc]
        exact ih _ hmem'

/-- C6: the sweep uses the strict cutoff `now - createdAt > TTL`: a record
one millisecond past the TTL is dropped by `cleanupExpiredFiles` and its
blob is no longer present, a record one millisecond short of it survives,
and the shrunken document is persisted. -/
theorem sweep_expiry_boundary (st : ServerState) (now : Int)
    (rOld rNew : FileRecord) (hOld : rOld ∈ st.files)
    (hOldAge : rOld.createdAt = now - FILE_EXPIRY_MS - 1)
    (hNew : rNew ∈ st.files)
    (hNewAge : rNew.createdAt = now - FILE_EXPIRY_MS + 1) :
    rOld ∉ (cleanupExpiredFiles st now).1.files ∧
    rNew ∈ (cleanupExpiredFiles st now).1.files ∧
    blobExists (cleanupExpiredFiles st now).1.blobs rOld.filename = false ∧
    (cleanupExpiredFiles st now).2 = true := by
  have hOldLive : liveB now rOld = false := by
    simp [liveB, hOldAge]; omega
  have hNewLive : liveB now rNew = true := by
    simp [liveB, hNewAge]; omega
  have hOldExp : now - rOld.createdAt > FILE_EXPIRY_MS := by
    rw [hOldAge]; omega
  have hr1 : (sweepFiles now st.files st.blobs).1 =
      st.files.filter (liveB now) := sweep_fst now st.files st.blobs
  have hlt : (st.files.filter (liveB now)).length < st.files.length :=
    List.length_filter_lt_length_iff_exists.mpr
      ⟨rOld, hOld, by simp [hOldLive]⟩
  have hne : (sweepFiles now st.files st.blobs).1.length ≠
      st.files.length := by rw [hr1]; omega
  have hblob : ∀ b ∈ (sweepFiles now st.files st.blobs).2,
      b.1 ≠ rOld.filename :=
    sweep_unlinks_expired now st.files st.blobs rOld hOld hOldExp
  unfold cleanupExpiredFiles
  simp only [if_pos hne]
  refine ⟨?_, ?_, ?_, trivial⟩
  · rw [hr1]
    intro hmem
    have := (List.mem_filter.mp hmem).2
    rw [hOldLive] at this
    cases this
  · rw [hr1]
    exact List.mem_filter.mpr ⟨hNew, hNewLive⟩
  · simp only [blobExists, List.any_eq_false]
    intro b hb
    simpa using hblob b hb

/-- Witness for `sweep_expiry_boundary`: `now = 7200001`, one record aged
`TTL + 1` and one aged `TTL - 1`. -/
theorem sweep_expiry_boundary_witness :
    (({ id := "old", originalName := "o.txt", filename := "o.txt",
        downloads := 0, createdAt := 3600000 } : FileRecord) ∈
        [({ id := "old", originalName := "o.txt", filename := "o.txt",
            downloads := 0, createdAt := 3600000 } : FileRecord),
         { id := "new", originalName := "n.txt", filename := "n.txt",
           downloads := 0, createdAt := 3600002 }] ∧
     (3600000 : Int) = 7200001 - FILE_EXPIRY_MS - 1 ∧
     (3600002 : Int) = 7200001 - FILE_EXPIRY_MS + 1) ∧
    (({ id := "old", originalName := "o.txt", filename := "o.txt",
        downloads := 0, createdAt := 3600000 } : FileRecord) ∉
      (cleanupExpiredFiles
        { files := [{ id := "old", originalName := "o.txt",
                      filename := "o.txt", downloads := 0,
                      createdAt := 3600000 },
                    { id := "new", originalName := "n.txt",
                      filename := "n.txt", downloads := 0,
                      createdAt := 3600002 }],
          blobs := [("o.txt", ['x']), ("n.txt", ['y'])] } 7200001).1.files ∧
     ({ id := "new", originalName := "n.txt", filename := "n.txt",
        downloads := 0, createdAt := 3600002 } : FileRecord) ∈
      (cleanupExpiredFiles
        { files := [{ id := "old", originalName := "o.txt",
                      filename := "o.txt", downloads := 0,
                      createdAt := 3600000 },
                    { id := "new", originalName := "n.txt",
                      filename := "n.txt", downloads := 0,
                      createdAt := 3600002 }],
          blobs := [("o.txt", ['x']), ("n.txt", ['y'])] } 7200001).1.files ∧
     blobExists
      (cleanupExpiredFiles
        { files := [{ id := "old", originalName := "o.txt",
                      filename := "o.txt", downloads := 0,
                      createdAt := 3600000 },
                    { id := "new", originalName := "n.txt",
                      filename := "n.txt", downloads := 0,
                      createdAt := 3600002 }],
          blobs := [("o.txt", ['x']), ("n.txt", ['y'])] } 7200001).1.blobs
      "o.txt" = false ∧
     (cleanupExpiredFiles
        { files := [{ id := "old", originalName := "o.txt",
                      filename := "o.txt", downloads := 0,
                      createdAt := 3600000 },
                    { id := "new", originalName := "n.txt",
                      filename := "n.txt", downloads := 0,
                      createdAt := 3600002 }],
          blobs := [("o.txt", ['x']), ("n.txt", ['y'])] } 7200001).2 = true) :=
  ⟨⟨by decide, by decide, by decide⟩,
   sweep_expiry_boundary
     { files := [{ id := "old", originalName := "o.txt", filename := "o.txt",
                   downloads := 0, createdAt := 3600000 },
                 { id := "new", originalName := "n.txt", filename := "n.txt",
                   downloads := 0, createdAt := 3600002 }],
       blobs := [("o.txt", ['x']), ("n.txt", ['y'])] } 7200001
     { id := "old", originalName := "o.txt", filename := "o.txt",
       downloads := 0, createdAt := 3600000 }
     { id := "new", originalName := "n.txt", filename := "n.txt",
       downloads := 0, createdAt := 3600002 }
     (by decide) (by decide) (by decide) (by decide)⟩

/-- A sweep run over a store whose records are all live changes nothing
and does not save. -/
theorem cleanup_all_live (st : ServerState) (now : Int)
    (hall : ∀ f ∈ st.files, liveB now f = true) :
    cleanupExpiredFiles st now = (st, false) := by
  have h1 : (sweepFiles now st.files st.blobs).1 = st.files := by
    rw [sweep_fst]; exact List.filter_eq_self.mpr hall
  have h2 : (sweepFiles now st.files st.blobs).2 = st.blobs :=
    sweep_snd_all_live now st.files st.blobs hall
  unfold cleanupExpiredFiles
  simp only [h1, h2, ne_eq, not_true_eq_false, if_false]

/-- C7: `cleanupExpiredFiles` saves the metadata document exactly when the
partition dropped at least one record, and a second consecutive run (same
clock, no intervening uploads) returns the first run's state unchanged
with no save — no further metadata or blob-repository mutation. -/
theorem sweep_persists_iff_removed_and_idempotent (st : ServerState)
    (now : Int) :
    ((cleanupExpiredFiles st now).2 = true ↔
      ∃ r ∈ st.files, now - r.createdAt > FILE_EXPIRY_MS) ∧
    cleanupExpiredFiles (cleanupExpiredFiles st now).1 now =
      ((cleanupExpiredFiles st now).1, false) := by
  have hr1 : (sweepFiles now st.files st.blobs).1 =
      st.files.filter (liveB now) := sweep_fst now st.files st.blobs
  have hle : (st.files.filter (liveB now)).length ≤ st.files.length :=
    List.length_filter_le _ _
  have hiff : (st.files.filter (liveB now)).length ≠ st.files.length ↔
      ∃ r ∈ st.files, now - r.createdAt > FILE_EXPIRY_MS := by
    constructor
    · intro h
      obtain ⟨x, hx, hlx⟩ :=
        List.length_filter_lt_length_iff_exists.mp (lt_of_le_of_ne hle h)
      refine ⟨x, hx, ?_⟩
      simp [liveB] at hlx
      omega
    · rintro ⟨r, hr, hexp⟩
      have hlt : (st.files.filter (liveB now)).length < st.files.length :=
        List.length_filter_lt_length_iff_exists.mpr
          ⟨r, hr, by simp [liveB]; omega⟩
      omega
  have hall : ∀ f ∈ (cleanupExpiredFiles st now).1.files,
      liveB now f = true := by
    unfold cleanupExpiredFiles
    by_cases hc : (sweepFiles now st.files st.blobs).1.length ≠
        st.files.length
    · simp only [if_pos hc]
      intro f hf
      rw [hr1] at hf
      exact (List.mem_filter.mp hf).2
    · simp only [if_neg hc]
      intro f hf
      by_contra hnot
      have hlt : (st.files.filter (liveB now)).length < st.files.length :=
        List.length_filter_lt_length_iff_exists.mpr ⟨f, hf, by simp [hnot]⟩
      rw [hr1] at hc
      omega
  refine ⟨?_, cleanup_all_live _ now hall⟩
  unfold cleanupExpiredFiles
  by_cases hc : (sweepFiles now st.files st.blobs).1.length ≠ st.files.length
  · simp only [if_pos hc]
    exact iff_of_true trivial (hiff.mp (by rwa [hr1] at hc))
  · simp only [if_neg hc]
    refine iff_of_false (by simp) (fun hex => hc ?_)
    rw [hr1]
    exact hiff.mpr hex

/-! ## C1: the per-chunk boundary scan misses a split closing marker -/

/-- C1 (code bug, server.js:271-339): the hand-rolled ingestion engine
scans each chunk in isolation and keeps no trailing window, so on the very
same byte stream it completes when the closing marker arrives whole in one
chunk but, when the marker straddles two chunks, it writes the marker
fragments into the blob (`hi\r\n--XYZ--\r\n` instead of `hi`), never sends
a response, and never registers a record — the round-trip property fails. -/
theorem split_boundary_breaks_roundtrip :
    chunksSplitBoundary.flatten = chunksWholeBoundary.flatten ∧
    (runUpload "XYZ".toList "id1" 100 true [] chunksSplitBoundary).response =
      none ∧
    (runUpload "XYZ".toList "id1" 100 true [] chunksSplitBoundary).store =
      [] ∧
    (runUpload "XYZ".toList "id1" 100 true [] chunksSplitBoundary).written =
      "hi\r\n--XYZ--\r\n".toList ∧
    (runUpload "XYZ".toList "id1" 100 true [] chunksSplitBoundary).written ≠
      "hi".toList ∧
    (runUpload "XYZ".toList "id1" 100 true [] chunksWholeBoundary).response =
      some (.ok "id1" "a.txt" "/f/id1") := by
  decide

/-! ## C2: concurrent downloads are counted exactly -/

/-- The download handler's effect on the state when the id is found and
the blob exists: only the first-matching record is replaced by its
`downloads + 1` copy. -/
theorem downloadHandler_step (pre post : List FileRecord) (f : FileRecord)
    (blobs : List (String × List Char)) (id : String)
    (hpre : ∀ r ∈ pre, r.id ≠ id) (hf : f.id = id)
    (hblob : blobExists blobs f.filename = true) :
    (downloadHandler { files := pre ++ f :: post, blobs := blobs } id).1 =
      { files := pre ++ { f with downloads := f.downloads + 1 } :: post,
        blobs := blobs } := by
  have hidx : (pre ++ f :: post).findIdx (fun r => r.id == id) = pre.length :=
    findIdx_append_cons _ _ _ _
      (fun r hr => by simp [hpre r hr]) (by simp [hf])
  have hlt : pre.length < (pre ++ f :: post).length := by
    simp [List.length_append]
  unfold downloadHandler
  simp only [hidx, dif_pos hlt]
  rw [get_append_cons pre post f hlt]
  simp [hblob, set_append_cons]

/-- C2: each download request's load-mutate-save cycle is synchronous
(`readFileSync` to `writeFileSync`, no await), hence atomic under
run-to-completion, so `N` concurrent fetches of a live record with a
present blob serialize and leave `downloads` equal to its prior value
plus `N` — no update is lost. -/
theorem concurrent_fetches_count_exactly (pre post : List FileRecord)
    (f : FileRecord) (blobs : List (String × List Char)) (id : String)
    (N : Nat) (hpre : ∀ r ∈ pre, r.id ≠ id) (hf : f.id = id)
    (hblob : blobExists blobs f.filename = true) :
    fetchN { files := pre ++ f :: post, blobs := blobs } id N =
      { files := pre ++ { f with downloads := f.downloads + N } :: post,
        blobs := blobs } := by
  suffices h : ∀ g : FileRecord, g.id = id →
      blobExists blobs g.filename = true →
      fetchN { files := pre ++ g :: post, blobs := blobs } id N =
        { files := pre ++ { g with downloads := g.downloads + N } :: post,
          blobs := blobs } from h f hf hblob
  induction N with
  | zero => intro g hg hb; simp [fetchN]
  | succ n ih =>
    intro g hg hb
    have h1 := downloadHandler_step pre post g blobs id hpre hg hb
    calc fetchN { files := pre ++ g :: post, blobs := blobs } id (n + 1)
        = fetchN (downloadHandler
            { files := pre ++ g :: post, blobs := blobs } id).1 id n := rfl
      _ = fetchN { files := pre ++ { g with downloads := g.downloads + 1 }
            :: post, blobs := blobs } id n := by rw [h1]
      _ = { files := pre ++ { g with downloads := g.downloads + 1 + n }
            :: post, blobs := blobs } :=
          ih { g with downloads := g.downloads + 1 } hg hb
      _ = { files := pre ++ { g with downloads := g.downloads + (n + 1) }
            :: post, blobs := blobs } := by
          have he : g.downloads + 1 + n = g.downloads + (n + 1) := by omega
          rw [he]

/-- Witness for `concurrent_fetches_count_exactly`: two fetches of a
fresh record take its counter from 0 to 2. -/
theorem concurrent_fetches_count_witness :
    ((∀ r ∈ ([] : List FileRecord), r.id ≠ "a") ∧
     ({ id := "a", originalName := "orig.txt", filename := "a.txt",
        downloads := 0, createdAt := 0 } : FileRecord).id = "a" ∧
     blobExists [("a.txt", ['h', 'i'])] "a.txt" = true) ∧
    fetchN { files := [{ id := "a", originalName := "orig.txt",
                         filename := "a.txt", downloads := 0,
                         createdAt := 0 }],
             blobs := [("a.txt", ['h', 'i'])] } "a" 2 =
      { files := [{ id := "a", originalName := "orig.txt",
                    filename := "a.txt", downloads := 2, createdAt := 0 }],
        blobs := [("a.txt", ['h', 'i'])] } :=
  ⟨⟨by decide, rfl, by decide⟩,
   concurrent_fetches_count_exactly [] []
     { id := "a", originalName := "orig.txt", filename := "a.txt",
       downloads := 0, createdAt := 0 }
     [("a.txt", ['h', 'i'])] "a" 2 (by decide) (by decide) (by decide)⟩

/-! ## indexOfSub lemmas for C5 -/

theorem isPrefixOf_append_ext (p l r : List Char)
    (h : p.isPrefixOf l = true) : p.isPrefixOf (l ++ r) = true := by
  induction p generalizing l with
  | nil => simp [List.isPrefixOf]
  | cons a as ih =>
    cases l with
    | nil => simp [List.isPrefixOf] at h
    | cons b bs =>
      simp only [List.cons_append, List.isPrefixOf, Bool.and_eq_true] at h ⊢
      exact ⟨h.1, ih bs h.2⟩

theorem isPrefixOf_length_le (p l : List Char)
    (h : p.isPrefixOf l = true) : p.length ≤ l.length := by
  induction p generalizing l with
  | nil => simp
  | cons a as ih =>
    cases l with
    | nil => simp [List.isPrefixOf] at h
    | cons b bs =>
      simp only [List.isPrefixOf, Bool.and_eq_true] at h
      simp only [List.length_cons]
      exact Nat.succ_le_succ (ih bs h.2)

theorem isPrefixOf_append_elim (p l r : List Char)
    (hle : p.length ≤ l.length) (h : p.isPrefixOf (l ++ r) = true) :
    p.isPrefixOf l = true := by
  induction p generalizing l with
  | nil => simp [List.isPrefixOf]
  | cons a as ih =>
    cases l with
    | nil => simp at hle
    | cons b bs =>
      simp only [List.cons_append, List.isPrefixOf, Bool.and_eq_true] at h ⊢
      exact ⟨h.1, ih bs (by simpa using hle) h.2⟩

theorem indexOfSub_bound (pat : List Char) (s : List Char) (i : Nat)
    (h : indexOfSub pat s = some i) : i + pat.length ≤ s.length := by
  induction s generalizing i with
  | nil =>
    by_cases hp : pat.isEmpty
    · simp [indexOfSub, hp] at h
      subst h
      simp [List.isEmpty_iff.mp hp]
    · simp [indexOfSub, hp] at h
  | cons a rest ih =>
    by_cases hpre : pat.isPrefixOf (a :: rest)
    · simp [indexOfSub, hpre] at h
      subst h
      simpa using isPrefixOf_length_le pat (a :: rest) hpre
    · simp only [indexOfSub, if_neg hpre, Option.map_eq_some'] at h
      obtain ⟨j, hj, rfl⟩ := h
      have := ih j hj
      simp only [List.length_cons]
      omega

theorem indexOfSub_append_left (pat xs ys : List Char) (i : Nat)
    (hp : pat ≠ []) (h : indexOfSub pat xs = some i) :
    indexOfSub pat (xs ++ ys) = some i := by
  induction xs generalizing i with
  | nil =>
    have : pat.isEmpty = false := by
      cases pat with
      | nil => exact absurd rfl hp
      | cons c l => rfl
    simp [indexOfSub, this] at h
  | cons a xs' ih =>
    by_cases hpre : pat.isPrefixOf (a :: xs')
    · simp [indexOfSub, hpre] at h
      have hpre' : pat.isPrefixOf (a :: (xs' ++ ys)) := by
        have := isPrefixOf_append_ext pat (a :: xs') ys hpre
        simpa using this
      simp [indexOfSub, hpre', h]
    · simp only [indexOfSub, if_neg hpre, Option.map_eq_some'] at h
      obtain ⟨j, hj, rfl⟩ := h
      have hlen : pat.length ≤ xs'.length := by
        have := indexOfSub_bound pat xs' j hj
        omega
      have hpre2 : ¬ pat.isPrefixOf (a :: (xs' ++ ys)) := by
        intro hc
        apply hpre
        have hle : pat.length ≤ (a :: xs').length := by
          simp only [List.length_cons]; omega
        exact isPrefixOf_append_elim pat (a :: xs') ys hle
          (by simpa using hc)
      rw [show (a :: xs') ++ ys = a :: (xs' ++ ys) from rfl]
      simp only [indexOfSub, if_neg hpre2, ih j hj, Option.map_some']

theorem indexOfSub_append_right (c : Char) (pat xs ys : List Char)
    (h : c ∉ xs) :
    indexOfSub (c :: pat) (xs ++ ys) =
      (indexOfSub (c :: pat) ys).map (· + xs.length) := by
  induction xs with
  | nil =>
    cases hy : indexOfSub (c :: pat) ys <;> simp [hy]
  | cons a xs' ih =>
    have hpre : ¬ (c :: pat).isPrefixOf (a :: (xs' ++ ys)) := by
      intro hc
      have h2 : (c == a) = true ∧ pat.isPrefixOf (xs' ++ ys) = true := by
        simpa only [List.isPrefixOf, Bool.and_eq_true] using hc
      exact h (by simp [beq_iff_eq.mp h2.1])
    rw [show (a :: xs') ++ ys = a :: (xs' ++ ys) from rfl]
    simp only [indexOfSub, if_neg hpre]
    rw [ih (fun hc => h (by simp [hc]))]
    cases hy : indexOfSub (c :: pat) ys with
    | none => simp [hy]
    | some v => simp [hy]; omega

/-! ## C5: the two upload variants are not equivalent -/

/-- C5 counterexample: on the same well-formed request (body `hi`), the
field-parsing-library semantics (`specMultipartExtract`) yields the file
bytes `hi`, while the hand-rolled handler — though it reports the same
success shape — stores `hi\r\n`: the stored blob bytes differ, so the two
implementations are not functionally equivalent. -/
theorem upload_variants_not_equivalent_cex :
    specMultipartExtract "XYZ".toList
        (reqHeaderChunk ++ ("hi".toList ++ reqTail)) =
      some ("a.txt".toList, "hi".toList) ∧
    (runUpload "XYZ".toList "id1" 100 true []
        [reqHeaderChunk, "hi".toList ++ reqTail]).response =
      some (.ok "id1" "a.txt" "/f/id1") ∧
    (runUpload "XYZ".toList "id1" 100 true []
        [reqHeaderChunk, "hi".toList ++ reqTail]).written =
      "hi\r\n".toList ∧
    "hi\r\n".toList ≠ "hi".toList := by
  decide

/-- C5 amended: the two upload handlers agree on the caller-visible
response (same filename and `/f/{id}` link) for well-formed two-chunk
deliveries, but they are NOT functionally equivalent: for every body `B`
free of `-` and `\r` (so the closing marker lies whole in the second
chunk), the field-parsing semantics stores exactly `B` while the
hand-rolled handler stores `B ++ \r\n` — the framing CRLF leaks into the
blob, so the stored bytes always differ. -/
theorem upload_variants_differ_in_stored_bytes (B : List Char)
    (hdash : '-' ∉ B) (hcr : '\r' ∉ B) :
    (runUpload "XYZ".toList "id1" 100 true []
        [reqHeaderChunk, B ++ reqTail]).response =
      some (.ok "id1" "a.txt" "/f/id1") ∧
    (runUpload "XYZ".toList "id1" 100 true []
        [reqHeaderChunk, B ++ reqTail]).written = B ++ "\r\n".toList ∧
    (runUpload "XYZ".toList "id1" 100 true []
        [reqHeaderChunk, B ++ reqTail]).store =
      [{ id := "id1", originalName := "a.txt", filename := "id1.txt",
         downloads := 0, createdAt := 100 }] ∧
    specMultipartExtract "XYZ".toList (reqHeaderChunk ++ (B ++ reqTail)) =
      some ("a.txt".toList, B) ∧
    B ++ "\r\n".toList ≠ B := by
  have h0 : onData "XYZ".toList "id1" 100 true (initStream []) reqHeaderChunk =
      { filename := "a.txt".toList, fileStart := true, streamOpen := true,
        written := [], headerBuffer := reqHeaderChunk, response := none,
        store := [] } := by decide
  have hmark : indexOfSub ('-' :: '-' :: "XYZ".toList) (B ++ reqTail) =
      some (B.length + 2) := by
    rw [indexOfSub_append_right '-' ('-' :: "XYZ".toList) B reqTail hdash]
    have : indexOfSub ('-' :: '-' :: "XYZ".toList) reqTail = some 2 := by
      decide
    rw [this, Option.map_some']
    simp [Nat.add_comm]
  have hrun : runUpload "XYZ".toList "id1" 100 true []
      [reqHeaderChunk, B ++ reqTail] =
      onData "XYZ".toList "id1" 100 true
        { filename := "a.txt".toList, fileStart := true, streamOpen := true,
          written := [], headerBuffer := reqHeaderChunk, response := none,
          store := [] } (B ++ reqTail) := by
    have hre : runUpload "XYZ".toList "id1" 100 true []
        [reqHeaderChunk, B ++ reqTail] =
        onData "XYZ".toList "id1" 100 true
          (onData "XYZ".toList "id1" 100 true (initStream []) reqHeaderChunk)
          (B ++ reqTail) := rfl
    rw [hre, h0]
  have htake : (B ++ reqTail).take (B.length + 2) = B ++ "\r\n".toList := by
    rw [List.take_append]
    rfl
  have hstep : onData "XYZ".toList "id1" 100 true
      { filename := "a.txt".toList, fileStart := true, streamOpen := true,
        written := [], headerBuffer := reqHeaderChunk, response := none,
        store := [] } (B ++ reqTail) =
      { filename := "a.txt".toList, fileStart := true, streamOpen := false,
        written := B ++ "\r\n".toList, headerBuffer := reqHeaderChunk,
        response := some (.ok "id1" "a.txt" "/f/id1"),
        store := [{ id := "id1", originalName := "a.txt",
                    filename := "id1.txt", downloads := 0,
                    createdAt := 100 }] } := by
    unfold onData
    simp only [hmark]
    simp [htake]
    decide
  have hspec : specMultipartExtract "XYZ".toList
      (reqHeaderChunk ++ (B ++ reqTail)) = some ("a.txt".toList, B) := by
    have e1 : indexOfSub ("\r\n\r\n".toList) reqHeaderChunk = some 68 := by
      decide
    have e1' : indexOfSub ("\r\n\r\n".toList)
        (reqHeaderChunk ++ (B ++ reqTail)) = some 68 :=
      indexOfSub_append_left _ _ _ _ (by decide) e1
    have e2 : (reqHeaderChunk ++ (B ++ reqTail)).take 68 =
        reqHeaderChunk.take 68 :=
      List.take_append_of_le_length (by decide)
    have e3 : extractFilename (reqHeaderChunk.take 68) =
        some ("a.txt".toList) := by decide
    have e4 : (reqHeaderChunk ++ (B ++ reqTail)).drop (68 + 4) =
        B ++ reqTail := by
      have : (68 : Nat) + 4 = reqHeaderChunk.length := by decide
      rw [this, List.drop_left]
    have e5 : indexOfSub ('\r' :: '\n' :: '-' :: '-' :: "XYZ".toList)
        (B ++ reqTail) = some B.length := by
      rw [indexOfSub_append_right '\r' ('\n' :: '-' :: '-' :: "XYZ".toList)
            B reqTail hcr]
      have : indexOfSub ('\r' :: '\n' :: '-' :: '-' :: "XYZ".toList)
          reqTail = some 0 := by decide
      rw [this, Option.map_some']
      simp
    have e6 : (B ++ reqTail).take B.length = B := List.take_left B reqTail
    unfold specMultipartExtract
    simp only [e1', e2, e3, e4, e5, e6]
  refine ⟨?_, ?_, ?_, hspec, ?_⟩
  · rw [hrun, hstep]
  · rw [hrun, hstep]
  · rw [hrun, hstep]
  · intro hc
    have := congrArg List.length hc
    simp at this

/-- Witness for `upload_variants_differ_in_stored_bytes` at body `hi`. -/
theorem upload_variants_differ_witness :
    (('-' ∉ "hi".toList) ∧ ('\r' ∉ "hi".toList)) ∧
    ((runUpload "XYZ".toList "id1" 100 true []
        [reqHeaderChunk, "hi".toList ++ reqTail]).response =
      some (.ok "id1" "a.txt" "/f/id1") ∧
     (runUpload "XYZ".toList "id1" 100 true []
        [reqHeaderChunk, "hi".toList ++ reqTail]).written =
      "hi".toList ++ "\r\n".toList ∧
     (runUpload "XYZ".toList "id1" 100 true []
        [reqHeaderChunk, "hi".toList ++ reqTail]).store =
      [{ id := "id1", originalName := "a.txt", filename := "id1.txt",
         downloads := 0, createdAt := 100 }] ∧
     specMultipartExtract "XYZ".toList
        (reqHeaderChunk ++ ("hi".toList ++ reqTail)) =
      some ("a.txt".toList, "hi".toList) ∧
     "hi".toList ++ "\r\n".toList ≠ "hi".toList) :=
  ⟨⟨by decide, by decide⟩,
   upload_variants_differ_in_stored_bytes "hi".toList (by decide) (by decide)⟩

/-! ## C9: downloads monotone, createdAt immutable -/

theorem onData_store_cases (bd : List Char) (fid : String) (now : Int)
    (pk : Bool) (st : StreamState) (c : List Char) :
    (onData bd fid now pk st c).store = st.store ∨
    ∃ rec1 : FileRecord, rec1.id = fid ∧ rec1.downloads = 0 ∧
      rec1.createdAt = now ∧
      (onData bd fid now pk st c).store = st.store ++ [rec1] := by
  unfold onData
  dsimp only
  split
  · split
    · left; rfl
    · split
      · left; rfl
      · left; rfl
  · split
    · split
      · cases pk
        · left; simp
        · right
          refine ⟨{ id := fid, originalName := String.mk st.filename,
                    filename := fid ++ String.mk (extname st.filename),
                    downloads := 0, createdAt := now }, rfl, rfl, rfl, ?_⟩
          simp
      · left; rfl
    · left; rfl

theorem runUpload_store_mem (bd : List Char) (fid : String) (now : Int)
    (pk : Bool) (store : List FileRecord) (chunks : List (List Char)) :
    ∀ r ∈ (runUpload bd fid now pk store chunks).store,
      r ∈ store ∨ (r.id = fid ∧ r.downloads = 0 ∧ r.createdAt = now) := by
  suffices h : ∀ st : StreamState,
      (∀ r ∈ st.store,
        r ∈ store ∨ (r.id = fid ∧ r.downloads = 0 ∧ r.createdAt = now)) →
      ∀ r ∈ (chunks.foldl (onData bd fid now pk) st).store,
        r ∈ store ∨ (r.id = fid ∧ r.downloads = 0 ∧ r.createdAt = now) by
    exact h (initStream store) (fun r hr => Or.inl hr)
  induction chunks with
  | nil => intro st hst; exact hst
  | cons c rest ih =>
    intro st hst
    apply ih
    intro r hr
    rcases onData_store_cases bd fid now pk st c with
      heq | ⟨rec1, hi, hd, hc, heq⟩
    · rw [heq] at hr
      exact hst r hr
    · rw [heq] at hr
      rcases List.mem_append.mp hr with h | h
      · exact hst r h
      · simp only [List.mem_singleton] at h
        subst h
        exact Or.inr ⟨hi, hd, hc⟩

theorem pairwise_ne_id_mem_eq (fs : List FileRecord)
    (h : List.Pairwise (fun a b => a.id ≠ b.id) fs)
    (r f : FileRecord) (hr : r ∈ fs) (hf : f ∈ fs) (hid : r.id = f.id) :
    r = f := by
  induction fs with
  | nil => cases hr
  | cons a l ih =>
    rcases List.pairwise_cons.mp h with ⟨ha, hl⟩
    rcases List.mem_cons.mp hr with rfl | hr2
    · rcases List.mem_cons.mp hf with rfl | hf2
      · rfl
      · exact absurd hid (ha f hf2)
    · rcases List.mem_cons.mp hf with rfl | hf2
      · exact absurd hid.symm (ha r hr2)
      · exact ih hl hr2 hf2

theorem downloadHandler_cases (st : ServerState) (id : String) :
    (downloadHandler st id).1 = st ∨
    (∃ i : Fin st.files.length, (st.files.get i).id = id ∧
      (downloadHandler st id).1 =
        { files := st.files.set i
            { st.files.get i with
              downloads := (st.files.get i).downloads + 1 },
          blobs := st.blobs }) ∨
    (∃ i : Fin st.files.length,
      (downloadHandler st id).1 =
        { files := st.files.eraseIdx i, blobs := st.blobs }) := by
  unfold downloadHandler
  dsimp only
  split
  next hlt =>
    split
    next hbe =>
      right; left
      refine ⟨⟨_, hlt⟩, ?_, rfl⟩
      have hp := @List.findIdx_getElem _ (fun f => f.id == id) st.files hlt
      simpa using hp
    next hbe =>
      right; right
      exact ⟨⟨_, hlt⟩, rfl⟩
  next hlt => left; rfl

theorem cleanup_files_subset (st : ServerState) (now : Int) :
    ∀ r ∈ (cleanupExpiredFiles st now).1.files, r ∈ st.files := by
  unfold cleanupExpiredFiles
  dsimp only
  split
  · intro r hr
    simp only at hr
    rw [sweep_fst] at hr
    exact List.mem_of_mem_filter hr
  · intro r hr
    exact hr

/-- C9: under the id-uniqueness invariant (ids are unique among live
records; minted ids are generator-fresh), every operation preserves both
record invariants. (1) A post-state record carrying the id of a pre-state
record has the same `createdAt`, `originalName` and `filename`, and its
`downloads` is either unchanged or exactly one larger — the increment
occurring only under a `fetch`: while a record exists, `downloads` is
monotonically non-decreasing and `createdAt` is never mutated.  (2) Every
post-state record is either identified with a pre-state record by id or
is freshly registered with `downloads = 0` and `createdAt` equal to the
operation's registration instant: `createdAt` is assigned once, at
registration. -/
theorem downloads_monotone_createdAt_immutable (st : ServerState) (op : Op)
    (huniq : List.Pairwise (fun a b => a.id ≠ b.id) st.files)
    (hfresh : freshIds st op) :
    (∀ r ∈ st.files, ∀ r2 ∈ (applyOp st op).files, r2.id = r.id →
      r2.createdAt = r.createdAt ∧ r2.originalName = r.originalName ∧
      r2.filename = r.filename ∧
      (r2.downloads = r.downloads ∨
        (r2.downloads = r.downloads + 1 ∧ ∃ id, op = Op.fetch id))) ∧
    (∀ r2 ∈ (applyOp st op).files,
      (∃ r ∈ st.files, r2.id = r.id) ∨
      (r2.downloads = 0 ∧ opNow op = some r2.createdAt)) := by
  cases op with
  | formUpload file now pk =>
    have hpost : ∀ r2 ∈ (applyOp st (Op.formUpload file now pk)).files,
        r2 ∈ st.files ∨
        ∃ n p : String, ∃ c : List Char, file = some (n, c, p) ∧
          r2 = { id := String.mk (stripExt (basenameChars p.toList)),
                 originalName := n,
                 filename := String.mk (basenameChars p.toList),
                 downloads := 0, createdAt := now } := by
      intro r2 hr2
      cases file with
      | none => exact Or.inl (by simpa [applyOp, uploadCallback] using hr2)
      | some f =>
        obtain ⟨n, c, p⟩ := f
        cases pk with
        | false =>
          exact Or.inl (by simpa [applyOp, uploadCallback] using hr2)
        | true =>
          have h2 : r2 ∈ st.files ∨
              r2 = { id := String.mk (stripExt (basenameChars p.toList)),
                     originalName := n,
                     filename := String.mk (basenameChars p.toList),
                     downloads := 0, createdAt := now } := by
            simpa [applyOp, uploadCallback] using hr2
          rcases h2 with h | h
          · exact Or.inl h
          · exact Or.inr ⟨n, p, c, rfl, h⟩
    constructor
    · intro r hr r2 hr2 hid
      rcases hpost r2 hr2 with hmem | ⟨n, p, c, hfile, heq⟩
      · have he := pairwise_ne_id_mem_eq st.files huniq r2 r hmem hr hid
        subst he
        exact ⟨rfl, rfl, rfl, Or.inl rfl⟩
      · subst hfile
        subst heq
        exact absurd hid.symm (hfresh r hr)
    · intro r2 hr2
      rcases hpost r2 hr2 with hmem | ⟨n, p, c, hfile, heq⟩
      · exact Or.inl ⟨r2, hmem, rfl⟩
      · subst heq
        exact Or.inr ⟨rfl, rfl⟩
  | streamUpload bd fid now pk chunks =>
    have hpost : ∀ r2 ∈ (applyOp st
        (Op.streamUpload bd fid now pk chunks)).files,
        r2 ∈ st.files ∨
        (r2.id = fid ∧ r2.downloads = 0 ∧ r2.createdAt = now) := by
      intro r2 hr2
      exact runUpload_store_mem bd fid now pk st.files chunks r2
        (by simpa [applyOp] using hr2)
    constructor
    · intro r hr r2 hr2 hid
      rcases hpost r2 hr2 with hmem | ⟨hif, hd, hc⟩
      · have he := pairwise_ne_id_mem_eq st.files huniq r2 r hmem hr hid
        subst he
        exact ⟨rfl, rfl, rfl, Or.inl rfl⟩
      · exact absurd (hid.symm.trans hif) (hfresh r hr)
    · intro r2 hr2
      rcases hpost r2 hr2 with hmem | ⟨hif, hd, hc⟩
      · exact Or.inl ⟨r2, hmem, rfl⟩
      · refine Or.inr ⟨hd, ?_⟩
        rw [hc]
        rfl
  | describe id =>
    constructor
    · intro r hr r2 hr2 hid
      have he := pairwise_ne_id_mem_eq st.files huniq r2 r hr2 hr hid
      subst he
      exact ⟨rfl, rfl, rfl, Or.inl rfl⟩
    · intro r2 hr2
      exact Or.inl ⟨r2, hr2, rfl⟩
  | landing id =>
    constructor
    · intro r hr r2 hr2 hid
      have he := pairwise_ne_id_mem_eq st.files huniq r2 r hr2 hr hid
      subst he
      exact ⟨rfl, rfl, rfl, Or.inl rfl⟩
    · intro r2 hr2
      exact Or.inl ⟨r2, hr2, rfl⟩
  | fetch id =>
    have happ : (applyOp st (Op.fetch id)).files =
        (downloadHandler st id).1.files := rfl
    rcases downloadHandler_cases st id with heq | ⟨i, hig, heq⟩ | ⟨i, heq⟩
    · constructor
      · intro r hr r2 hr2 hid
        rw [happ, heq] at hr2
        have he := pairwise_ne_id_mem_eq st.files huniq r2 r hr2 hr hid
        subst he
        exact ⟨rfl, rfl, rfl, Or.inl rfl⟩
      · intro r2 hr2
        rw [happ, heq] at hr2
        exact Or.inl ⟨r2, hr2, rfl⟩
    · constructor
      · intro r hr r2 hr2 hid
        rw [happ, heq] at hr2
        dsimp only at hr2
        rcases List.mem_or_eq_of_mem_set hr2 with hmem | heq2
        · have he := pairwise_ne_id_mem_eq st.files huniq r2 r hmem hr hid
          subst he
          exact ⟨rfl, rfl, rfl, Or.inl rfl⟩
        · subst heq2
          have hid2 : (st.files.get i).id = r.id := hid
          have hge := pairwise_ne_id_mem_eq st.files huniq
            (st.files.get i) r (List.get_mem _ _ _) hr hid2
          rw [hge]
          exact ⟨rfl, rfl, rfl, Or.inr ⟨rfl, ⟨id, rfl⟩⟩⟩
      · intro r2 hr2
        rw [happ, heq] at hr2
        dsimp only at hr2
        rcases List.mem_or_eq_of_mem_set hr2 with hmem | heq2
        · exact Or.inl ⟨r2, hmem, rfl⟩
        · subst heq2
          exact Or.inl ⟨st.files.get i, List.get_mem _ _ _, rfl⟩
    · constructor
      · intro r hr r2 hr2 hid
        rw [happ, heq] at hr2
        dsimp only at hr2
        have hmem := List.mem_of_mem_eraseIdx hr2
        have he := pairwise_ne_id_mem_eq st.files huniq r2 r hmem hr hid
        subst he
        exact ⟨rfl, rfl, rfl, Or.inl rfl⟩
      · intro r2 hr2
        rw [happ, heq] at hr2
        dsimp only at hr2
        exact Or.inl ⟨r2, List.mem_of_mem_eraseIdx hr2, rfl⟩
  | sweep now =>
    constructor
    · intro r hr r2 hr2 hid
      have hmem := cleanup_files_subset st now r2 hr2
      have he := pairwise_ne_id_mem_eq st.files huniq r2 r hmem hr hid
      subst he
      exact ⟨rfl, rfl, rfl, Or.inl rfl⟩
    · intro r2 hr2
      exact Or.inl ⟨r2, cleanup_files_subset st now r2 hr2, rfl⟩

/-- Witness for `downloads_monotone_createdAt_immutable`: a `fetch` on a
one-record store with the blob present, exercising the increment case. -/
theorem downloads_monotone_witness :
    (List.Pairwise (fun a b => a.id ≠ b.id)
      [({ id := "a", originalName := "a.txt", filename := "a.txt",
          downloads := 4, createdAt := 7 } : FileRecord)] ∧
     freshIds
       { files := [{ id := "a", originalName := "a.txt",
                     filename := "a.txt", downloads := 4, createdAt := 7 }],
         blobs := [("a.txt", ['h', 'i'])] } (Op.fetch "a")) ∧
    ((∀ r ∈ [({ id := "a", originalName := "a.txt", filename := "a.txt",
                downloads := 4, createdAt := 7 } : FileRecord)],
      ∀ r2 ∈ (applyOp
        { files := [{ id := "a", originalName := "a.txt",
                      filename := "a.txt", downloads := 4, createdAt := 7 }],
          blobs := [("a.txt", ['h', 'i'])] } (Op.fetch "a")).files,
        r2.id = r.id →
        r2.createdAt = r.createdAt ∧ r2.originalName = r.originalName ∧
        r2.filename = r.filename ∧
        (r2.downloads = r.downloads ∨
          (r2.downloads = r.downloads + 1 ∧
            ∃ id, Op.fetch "a" = Op.fetch id))) ∧
     (∀ r2 ∈ (applyOp
        { files := [{ id := "a", originalName := "a.txt",
                      filename := "a.txt", downloads := 4, createdAt := 7 }],
          blobs := [("a.txt", ['h', 'i'])] } (Op.fetch "a")).files,
        (∃ r ∈ [({ id := "a", originalName := "a.txt", filename := "a.txt",
                   downloads := 4, createdAt := 7 } : FileRecord)],
          r2.id = r.id) ∨
        (r2.downloads = 0 ∧ opNow (Op.fetch "a") = some r2.createdAt))) :=
  ⟨⟨by simp, trivial⟩,
   downloads_monotone_createdAt_immutable
     { files := [{ id := "a", originalName := "a.txt", filename := "a.txt",
                   downloads := 4, createdAt := 7 }],
       blobs := [("a.txt", ['h', 'i'])] } (Op.fetch "a")
     (by simp) trivial⟩
